import Mathlib

/-!
Verification development for the CitrixDashboard repository (src/app3.py).

The program is a data dashboard: it loads activity, firmographic and contact
records from a relational store, reconciles them on loosely formatted customer
identifiers, classifies contacts by engagement and affinity, and supports a
bulk export with a date filter.

Strings are modelled as `List Char`.  Python string methods used by the
source are embedded faithfully:
  * `str.strip()`  → `trimList` (drop whitespace at both ends);
  * `str.upper()` / `str.lower()` → `upperList` / `lowerList`
    (ASCII case mapping, the only characters the identifiers involve);
  * `str.replace(pat, "")` → `removeAll` (delete every occurrence of `pat`,
    scanning left to right, non-overlapping, no rescan of produced output);
  * `str.split()` → `splitWs` (split on runs of whitespace, no empty tokens).
-/

namespace Citrix

/-- Whitespace test matching Python `str.strip` on the ASCII whitespace
characters. -/
def isSpaceChar (c : Char) : Bool :=
  c == ' ' || c == '\t' || c == '\n' || c == '\r' || c == '\x0b' || c == '\x0c'

/-- Python `str.strip()`: drop whitespace from both ends. -/
def trimList (s : List Char) : List Char :=
  ((s.dropWhile isSpaceChar).reverse.dropWhile isSpaceChar).reverse

/-- ASCII upper-casing of one character (Python `str.upper` on the ASCII
range). -/
def upperChar (c : Char) : Char :=
  if 97 ≤ c.toNat ∧ c.toNat ≤ 122 then Char.ofNat (c.toNat - 32) else c

/-- ASCII lower-casing of one character (Python `str.lower` on the ASCII
range). -/
def lowerChar (c : Char) : Char :=
  if 65 ≤ c.toNat ∧ c.toNat ≤ 90 then Char.ofNat (c.toNat + 32) else c

/-- Python `str.upper()` over the characters of a string. -/
def upperList (s : List Char) : List Char := s.map upperChar

/-- Python `str.lower()` over the characters of a string. -/
def lowerList (s : List Char) : List Char := s.map lowerChar

/-- Worker for `removeAll`.  The counter records how many characters of a
matched occurrence of the pattern remain to be skipped; at counter `0` the
scanner either finds the pattern at the current position (and starts skipping
its characters) or emits the current character and moves on.  This is exactly
the left-to-right, non-overlapping scan of Python `str.replace(pat, "")`. -/
def removeAllAux (pat : List Char) : Nat → List Char → List Char
  | _, [] => []
  | Nat.succ k, _ :: rest => removeAllAux pat k rest
  | 0, c :: rest =>
      if pat.isPrefixOf (c :: rest) then removeAllAux pat (pat.length - 1) rest
      else c :: removeAllAux pat 0 rest

/-- Python `s.replace(pat, "")`: delete every occurrence of `pat` in `s`,
scanning left to right, non-overlapping. -/
def removeAll (pat : List Char) (s : List Char) : List Char :=
  removeAllAux pat 0 s

/-- `occursIn pat s` is true when `pat` occurs as a contiguous substring of
`s`. -/
def occursIn (pat : List Char) : List Char → Bool
  | [] => pat.isPrefixOf []
  | c :: rest => pat.isPrefixOf (c :: rest) || occursIn pat rest

/-- The pattern `"H-CIT-"`. -/
def hcitPat : List Char := ['H', '-', 'C', 'I', 'T', '-']

/-- The pattern `"H-"`. -/
def hPat : List Char := ['H', '-']

/-- The pattern `"CIT-"`. -/
def citPat : List Char := ['C', 'I', 'T', '-']

/-- The identifier normalizer of `load_account_contacts` (src/app3.py line
94): `str(id).strip().upper().replace("H-CIT-", "").replace("H-", "")
.replace("CIT-", "")`. -/
def normalize (s : List Char) : List Char :=
  removeAll citPat (removeAll hPat (removeAll hcitPat (upperList (trimList s))))

/-- The per-row key transformation of the contacts SQL query (src/app3.py
line 100): `UPPER(REPLACE(REPLACE(REPLACE("party_number", 'H-CIT-', ''),
'H-', ''), 'CIT-', ''))`.  Note the store side replaces first and
upper-cases last, and never trims. -/
def sqlPartyKey (s : List Char) : List Char :=
  upperList (removeAll citPat (removeAll hPat (removeAll hcitPat s)))

end Citrix

namespace Citrix

/-- Splits a string at the first occurrence of `pat`: returns the part before
the occurrence and the part after it, or `none` when `pat` does not occur. -/
def findSplit (pat : List Char) : List Char → Option (List Char × List Char)
  | [] => none
  | c :: rest =>
      if pat.isPrefixOf (c :: rest) then some ([], (c :: rest).drop pat.length)
      else (findSplit pat rest).map (fun p => (c :: p.1, p.2))

/-- Worker for `removeEvery`: repeatedly delete the first remaining
occurrence of `pat`, keeping the text before it frozen.  The fuel argument
only bounds the number of deletions; `removeEvery` passes the length of the
string, which always suffices because each deletion of a non-empty pattern
strictly shortens the remainder. -/
def removeEveryAux (pat : List Char) : Nat → List Char → List Char
  | 0, s => s
  | Nat.succ fuel, s =>
      match findSplit pat s with
      | none => s
      | some (b, a) => b ++ removeEveryAux pat fuel a

/-- An independent formulation of occurrence removal: delete the first
occurrence of `pat`, keep the text before it, and continue on the text after
it until no occurrence is left. -/
def removeEvery (pat : List Char) (s : List Char) : List Char :=
  removeEveryAux pat s.length s

/-- Modelled from claim C3's words: trims, uppercases, then strips only the
literal leading occurrences of `"H-CIT-"`, `"H-"`, `"CIT-"`, checked in that
order, each applied at most once and non-recursively, altering no other
characters. -/
def stripLeadOnce (pat : List Char) (s : List Char) : List Char :=
  if pat.isPrefixOf s then s.drop pat.length else s

/-- The normalizer as claim C3 describes it (leading occurrences only). -/
def normalizeLeadSpec (s : List Char) : List Char :=
  stripLeadOnce citPat (stripLeadOnce hPat (stripLeadOnce hcitPat (upperList (trimList s))))

end Citrix

namespace Citrix

/-- The literal string `"nan"`, the text form of a pandas NaN. -/
def nanChars : List Char := ['n', 'a', 'n']

/-- The string `"purple"`. -/
def purpleColor : List Char := ['p', 'u', 'r', 'p', 'l', 'e']

/-- The string `"yellow"`. -/
def yellowColor : List Char := ['y', 'e', 'l', 'l', 'o', 'w']

/-- The string `"red"`. -/
def redColor : List Char := ['r', 'e', 'd']

/-- The condition `pd.notna(affinity) and str(affinity).strip() != "nan"`
of src/app3.py lines 231 and 260.  A null/NaN affinity value is modelled as
`none`, a string value as `some`.  Note the code never tests whether the
trimmed value is empty. -/
def affinityVisible (affinity : Option (List Char)) : Bool :=
  match affinity with
  | some a => !(trimList a == nanChars)
  | none => false

/-- The `status_color` lambda of src/app3.py lines 230-232:
purple when the affinity condition holds, else yellow when engaged, else
red. -/
def statusColor (affinity : Option (List Char)) (isEng : Bool) : List Char :=
  if affinityVisible affinity then purpleColor
  else if isEng then yellowColor else redColor

/-- Modelled from claim C1's words: purple only when the affinity code is
non-null AND trimmed non-empty AND not the literal `"nan"`. -/
def statusColorClaim (affinity : Option (List Char)) (isEng : Bool) : List Char :=
  match affinity with
  | some a =>
      if trimList a ≠ [] ∧ trimList a ≠ nanChars then purpleColor
      else if isEng then yellowColor else redColor
  | none => if isEng then yellowColor else redColor

end Citrix

namespace Citrix

/-- Worker for `splitWs`; `acc` holds the characters of the token currently
being read, in reverse order. -/
def splitWsAux (acc : List Char) : List Char → List (List Char)
  | [] => if acc = [] then [] else [acc.reverse]
  | c :: rest =>
      if isSpaceChar c then
        if acc = [] then splitWsAux [] rest
        else acc.reverse :: splitWsAux [] rest
      else splitWsAux (c :: acc) rest

/-- Python `str.split()` with no argument: split on runs of whitespace,
producing no empty tokens. -/
def splitWs (s : List Char) : List (List Char) := splitWsAux [] s

/-- Last element of the non-empty list `t :: ts`. -/
def lastToken (t : List Char) : List (List Char) → List Char
  | [] => t
  | t' :: ts => lastToken t' ts

/-- The `is_engaged` lambda of src/app3.py lines 225-228: split the
contact's display name on whitespace; with fewer than 2 tokens the result is
false, otherwise the pair (first token, last token), lower-cased, is looked
up in the engaged-name set. -/
def isEngaged (engagedNames : List (List Char × List Char))
    (name : List Char) : Bool :=
  match splitWs name with
  | t0 :: t1 :: ts =>
      engagedNames.contains (lowerList t0, lowerList (lastToken t1 ts))
  | _ => false

end Citrix

namespace Citrix

/-- One activity row, restricted to the fields the timeline derivation of
src/app3.py lines 183-200 uses: the canonical first/last name columns and
the buying-role column (which line 199 renames and then never uses). -/
structure ActivityRow where
  firstName : Option (List Char)
  lastName : Option (List Char)
  buyingRole : Option (List Char)
  deriving DecidableEq

/-- The named-partition test of src/app3.py line 194:
`"First Name"` not null and not the empty string. -/
def isNamedRow (r : ActivityRow) : Bool :=
  match r.firstName with
  | some f => !(f == [])
  | none => false

/-- The named partition of the activity rows (src/app3.py line 194). -/
def namedRows (rows : List ActivityRow) : List ActivityRow :=
  rows.filter isNamedRow

/-- The `Label` derivation of src/app3.py line 200:
`named["First Name"] + " " + named["Last Name"]`.  A missing last name
propagates as NaN (`none`); the buying-role column is never consulted. -/
def rowLabel (r : ActivityRow) : Option (List Char) :=
  match r.firstName, r.lastName with
  | some f, some l => some (f ++ ' ' :: l)
  | _, _ => none

/-- Modelled from claim C6's words: label `"first last - role"` when a
non-blank buying-role value exists for the row, else `"first last"`. -/
def rowLabelClaim (r : ActivityRow) : Option (List Char) :=
  match r.firstName, r.lastName with
  | some f, some l =>
      match r.buyingRole with
      | some role =>
          if trimList role ≠ [] then
            some (f ++ ' ' :: l ++ [' ', '-', ' '] ++ role)
          else some (f ++ ' ' :: l)
      | none => some (f ++ ' ' :: l)
  | _, _ => none

end Citrix

namespace Citrix

/-- A parsed timestamp as produced by `pd.to_datetime(..., utc=True)`:
`day` is the calendar date (`dt.date`, encoded as an integer date key) and
`tod` the time of day in seconds, which the export date filter discards.
An unparsable or missing raw value coerces to `none` (`NaT`). -/
structure PTimestamp where
  day : Int
  tod : Nat
  deriving DecidableEq

/-- One row of the `combined_datastore` activity table, restricted to the
fields the bulk-export path of src/app3.py uses: `"Account Name"`,
`"CustomerId_NAR"`, and the resolved activity-date column after the
`pd.to_datetime` conversion of line 342. -/
structure BulkRow where
  accountName : Option (List Char)
  customerId : Option (List Char)
  activityDate : Option PTimestamp
  deriving DecidableEq

/-- One row of the `demandbase_techno_f5_analysis` firmographic table:
the `"CustomerId_NAR"` key plus the open attribute columns, positional. -/
structure FirmoRow where
  customerId : Option (List Char)
  attrs : List (Option (List Char))
  deriving DecidableEq

/-- One row of the `bqresultsnov3` contact table. -/
structure ContactRow where
  partyNumber : Option (List Char)
  partyUniqueName : Option (List Char)
  jobTitle : Option (List Char)
  salesAffinityCode : Option (List Char)
  deriving DecidableEq

/-- A query issued to the data store, recorded so that theorems can speak
about whether a loader touched the store at all. -/
inductive SqlQuery
  | firmoQuery (ids : List (List Char))
  | contactQuery (normalizedIds : List (List Char))
  | bulkQuery (names : List (List Char))
  deriving DecidableEq

/-- `load_account_firmographics` (src/app3.py lines 69-84): empty id list
returns an empty frame at once; otherwise one query selects the rows whose
raw `"CustomerId_NAR"` is in the id set (SQL `IN`: a NULL key matches
nothing).  The function returns the selected rows unchanged. -/
def loadAccountFirmographics (db : List FirmoRow)
    (customerIds : List (List Char)) : List SqlQuery × List FirmoRow :=
  if customerIds = [] then ([], [])
  else
    ([SqlQuery.firmoQuery customerIds],
     db.filter (fun r =>
       match r.customerId with
       | some v => customerIds.contains v
       | none => false))

/-- `load_account_contacts` (src/app3.py lines 86-106): empty id list
returns an empty frame at once; otherwise the ids are normalized on the
application side (line 94, `normalize`) and one query selects the rows
whose store-side key transformation of `"party_number"` (line 100,
`sqlPartyKey`) is in the normalized id set. -/
def loadAccountContacts (db : List ContactRow)
    (customerIds : List (List Char)) : List SqlQuery × List ContactRow :=
  if customerIds = [] then ([], [])
  else
    ([SqlQuery.contactQuery (customerIds.map normalize)],
     db.filter (fun r =>
       match r.partyNumber with
       | some v => (customerIds.map normalize).contains (sqlPartyKey v)
       | none => false))

/-- `load_bulk_account_data` (src/app3.py lines 108-128): empty name list
returns an empty frame at once; otherwise one query selects the rows whose
`"Account Name"` is in the name set. -/
def loadBulkAccountData (db : List BulkRow)
    (accountNames : List (List Char)) : List SqlQuery × List BulkRow :=
  if accountNames = [] then ([], [])
  else
    ([SqlQuery.bulkQuery accountNames],
     db.filter (fun r =>
       match r.accountName with
       | some v => accountNames.contains v
       | none => false))

/-- `colEmptyAt rows j` holds when attribute column `j` is entirely empty
across `rows` (every value null or the empty string). -/
def colEmptyAt (rows : List FirmoRow) (j : Nat) : Bool :=
  rows.all (fun r =>
    match r.attrs.get? j with
    | some (some v) => v == []
    | _ => true)

/-- Modelled from claim C8's words: drop every entirely-empty attribute
column from a firmographic result. -/
def dropEmptyCols (rows : List FirmoRow) : List FirmoRow :=
  rows.map (fun r =>
    { r with
      attrs := (r.attrs.enum.filter (fun p => !(colEmptyAt rows p.1))).map
        Prod.snd })

/-- The firmographic lookup as claim C8 describes it: select the matching
rows, then drop entirely-empty columns before returning. -/
def loadAccountFirmographicsClaim (db : List FirmoRow)
    (customerIds : List (List Char)) : List SqlQuery × List FirmoRow :=
  ((loadAccountFirmographics db customerIds).1,
   dropEmptyCols (loadAccountFirmographics db customerIds).2)

/-- The date filter of the bulk export (src/app3.py lines 348-355): keep
the rows whose parsed date's calendar-date portion lies in the closed
interval; `NaT` (`none`) rows fail both comparisons and are dropped. -/
def dateFilter (startD endD : Int) (rows : List BulkRow) : List BulkRow :=
  rows.filter (fun r =>
    match r.activityDate with
    | none => false
    | some dt => decide (startD ≤ dt.day) && decide (dt.day ≤ endD))

/-- Worker for `uniqueFirst`: pandas `unique()` keeps the first occurrence
of each value, in order. -/
def uniqueFirstAux (seen : List (List Char)) :
    List (List Char) → List (List Char)
  | [] => []
  | x :: xs =>
      if seen.contains x then uniqueFirstAux seen xs
      else x :: uniqueFirstAux (x :: seen) xs

/-- `Series.dropna().unique().tolist()`: first occurrences, in order. -/
def uniqueFirst (l : List (List Char)) : List (List Char) :=
  uniqueFirstAux [] l

/-- The customer-id extraction of src/app3.py line 357:
`bulk_activity_df["CustomerId_NAR"].dropna().unique().tolist()`, taken from
the UNfiltered activity frame. -/
def exportCustIds (rows : List BulkRow) : List (List Char) :=
  uniqueFirst (rows.filterMap (fun r => r.customerId))

/-- The export-tab pipeline (src/app3.py lines 345-358): the date-filtered
activity set, paired with the customer ids extracted from the unfiltered
activity set (those ids feed the contact lookup). -/
def tabExport (startD endD : Int) (rows : List BulkRow) :
    List BulkRow × List (List Char) :=
  (dateFilter startD endD rows, exportCustIds rows)

end Citrix

namespace Citrix

/-- One presentation-layer action emitted while rendering the account view
(tab 1 of src/app3.py); the trace records, in order, what the view shows. -/
inductive UIAction
  | subheader (msg : List Char)
  | chart
  | info (msg : List Char)
  | errorMsg (msg : List Char)
  | dataframeView
  | metricsAndTiles
  deriving DecidableEq

/-- Header text of the timeline section. -/
def timelineHdr : List Char :=
  ['E', 'n', 'g', 'a', 'g', 'e', 'm', 'e', 'n', 't', ' ',
   'T', 'i', 'm', 'e', 'l', 'i', 'n', 'e']

/-- Header text of the firmographics section. -/
def firmoHdr : List Char :=
  ['F', 'i', 'r', 'm', 'o', 'g', 'r', 'a', 'p', 'h', 'i', 'c', 's']

/-- Header text of the contacts section. -/
def contactsHdr : List Char :=
  ['C', 'o', 'n', 't', 'a', 'c', 't', 's']

/-- Message of line 205: no named engagements. -/
def noNamedMsg : List Char :=
  ['N', 'o', ' ', 'n', 'a', 'm', 'e', 'd', ' ',
   'e', 'n', 'g', 'a', 'g', 'e', 'm', 'e', 'n', 't', 's', '.']

/-- Message of line 217: no customer ids found. -/
def noCustIdsMsg : List Char :=
  ['N', 'o', ' ', 'C', 'u', 's', 't', 'o', 'm', 'e', 'r', ' ',
   'I', 'D', 's', ' ', 'f', 'o', 'u', 'n', 'd', '.']

/-- Message of line 215: no firmographics data found. -/
def noFirmoMsg : List Char :=
  ['N', 'o', ' ', 'f', 'i', 'r', 'm', 'o', 'g', 'r', 'a', 'p', 'h', 'i',
   'c', 's', ' ', 'd', 'a', 't', 'a', ' ', 'f', 'o', 'u', 'n', 'd', '.']

/-- Message of line 303: no contacts match filters. -/
def noMatchMsg : List Char :=
  ['N', 'o', ' ', 'c', 'o', 'n', 't', 'a', 'c', 't', 's', ' ',
   'm', 'a', 't', 'c', 'h', ' ', 'f', 'i', 'l', 't', 'e', 'r', 's', '.']

/-- The candidate list `possible_first` of src/app3.py line 183.  The first
candidate `"First Name"` contains upper-case letters, so it can never match
a key of the lower-cased column dictionary; it is kept verbatim. -/
def possibleFirst : List (List Char) :=
  [['F', 'i', 'r', 's', 't', ' ', 'N', 'a', 'm', 'e'],
   ['f', 'i', 'r', 's', 't', ' ', 'n', 'a', 'm', 'e'],
   ['f', 'i', 'r', 's', 't', 'n', 'a', 'm', 'e'],
   ['f', 'i', 'r', 's', 't']]

/-- The candidate list `possible_last` of src/app3.py line 184. -/
def possibleLast : List (List Char) :=
  [['L', 'a', 's', 't', ' ', 'N', 'a', 'm', 'e'],
   ['l', 'a', 's', 't', ' ', 'n', 'a', 'm', 'e'],
   ['l', 'a', 's', 't', 'n', 'a', 'm', 'e'],
   ['l', 'a', 's', 't']]

/-- The dictionary `cols_lower = {c.lower(): c for c in columns}` of
src/app3.py line 185, looked up at `key`: a later column with the same
lower-cased name overwrites an earlier one, so the LAST match wins. -/
def colsLowerLookup (cols : List (List Char)) (key : List Char) :
    Option (List Char) :=
  match cols with
  | [] => none
  | c :: rest =>
      match colsLowerLookup rest key with
      | some v => some v
      | none => if lowerList c = key then some c else none

/-- The resolution `next((cols_lower[c] for c in candidates if c in
cols_lower), None)` of src/app3.py lines 186-187: first candidate with a
hit wins; `none` when no candidate matches. -/
def resolveCol (cols : List (List Char)) :
    List (List Char) → Option (List Char)
  | [] => none
  | cand :: cands =>
      match colsLowerLookup cols cand with
      | some orig => some orig
      | none => resolveCol cols cands

/-- The rendering trace of the account view, src/app3.py lines 181-303.
Besides the column names, the trace is parameterized by the outcome of the
data loads it branches on: whether the named partition is non-empty,
the extracted customer-id list, and whether the firmographic result, the
contact result and the filtered contact result are empty.  Note the
structure: an unresolved first/last name column produces NO action in the
timeline section (the `if f_col and l_col:` of line 192 has no else), and
the firmographics and contacts sections follow unconditionally. -/
def dashboardTrace (cols : List (List Char)) (hasNamed : Bool)
    (custIds : List (List Char))
    (firmoEmpty contactsEmpty filteredEmpty : Bool) : List UIAction :=
  UIAction.subheader timelineHdr ::
    ((match resolveCol cols possibleFirst, resolveCol cols possibleLast with
      | some _, some _ =>
          if hasNamed then [UIAction.chart] else [UIAction.info noNamedMsg]
      | _, _ => []) ++
      (UIAction.subheader firmoHdr ::
        ((if custIds = [] then [UIAction.info noCustIdsMsg]
          else if firmoEmpty then [UIAction.info noFirmoMsg]
          else [UIAction.dataframeView]) ++
          (UIAction.subheader contactsHdr ::
            (if custIds = [] then []
             else if contactsEmpty then []
             else if filteredEmpty then [UIAction.info noMatchMsg]
             else [UIAction.metricsAndTiles])))))

/-- Recognizes a user-visible error action in the trace. -/
def isErrorAction : UIAction → Bool
  | UIAction.errorMsg _ => true
  | _ => false

end Citrix

namespace Citrix

/-! ### Basic lemmas about the scanner -/

theorem removeAllAux_sublist (pat : List Char) :
    ∀ (s : List Char) (k : Nat), List.Sublist (removeAllAux pat k s) s := by
  intro s
  induction s with
  | nil => intro k; cases k <;> simp [removeAllAux]
  | cons c rest ih =>
    intro k
    cases k with
    | succ k =>
      simpa [removeAllAux] using (ih k).trans (List.sublist_cons_self c rest)
    | zero =>
      by_cases hp : pat.isPrefixOf (c :: rest)
      · simpa [removeAllAux, hp] using
          (ih (pat.length - 1)).trans (List.sublist_cons_self c rest)
      · simpa [removeAllAux, hp] using (ih 0).cons₂ c

theorem removeAllAux_of_not_occurs (pat : List Char) :
    ∀ s : List Char, occursIn pat s = false → removeAllAux pat 0 s = s := by
  intro s
  induction s with
  | nil => intro _; simp [removeAllAux]
  | cons c rest ih =>
    intro h
    simp only [occursIn, Bool.or_eq_false_iff] at h
    simp [removeAllAux, h.1, ih h.2]

theorem removeAll_of_not_occurs (pat s : List Char)
    (h : occursIn pat s = false) : removeAll pat s = s :=
  removeAllAux_of_not_occurs pat s h

theorem removeAllAux_skip (pat : List Char) :
    ∀ (k : Nat) (s : List Char),
      removeAllAux pat k s = removeAllAux pat 0 (s.drop k) := by
  intro k
  induction k with
  | zero => intro s; simp
  | succ k ih =>
    intro s
    cases s with
    | nil => cases k <;> simp [removeAllAux]
    | cons c rest => simp [removeAllAux, ih rest]

/-! ### Case-mapping lemmas -/

theorem upperChar_idem (c : Char) : upperChar (upperChar c) = upperChar c := by
  simp only [upperChar]
  by_cases h : 97 ≤ c.toNat ∧ c.toNat ≤ 122
  · rw [if_pos h]
    obtain ⟨h1, h2⟩ := h
    set n := c.toNat with hn
    interval_cases n <;> decide
  · rw [if_neg h, if_neg h]

theorem upperList_eq_self_iff (s : List Char) :
    upperList s = s ↔ ∀ c ∈ s, upperChar c = c := by
  induction s with
  | nil => simp [upperList]
  | cons c rest ih => simp [upperList] at ih ⊢; tauto

theorem upperList_idem (s : List Char) :
    upperList (upperList s) = upperList s := by
  rw [upperList_eq_self_iff]
  intro c hc
  simp only [upperList, List.mem_map] at hc
  obtain ⟨d, _, rfl⟩ := hc
  exact upperChar_idem d

theorem upperList_fixed_removeAll (pat s : List Char)
    (h : upperList s = s) :
    upperList (removeAll pat s) = removeAll pat s := by
  rw [upperList_eq_self_iff]
  intro c hc
  exact (upperList_eq_self_iff s).mp h c
    ((removeAllAux_sublist pat s 0).subset hc)

theorem upperList_fixed_normalize (x : List Char) :
    upperList (normalize x) = normalize x := by
  unfold normalize
  apply upperList_fixed_removeAll
  apply upperList_fixed_removeAll
  apply upperList_fixed_removeAll
  exact upperList_idem _

end Citrix

namespace Citrix

theorem length_le_of_isPrefixOf :
    ∀ p s : List Char, p.isPrefixOf s = true → p.length ≤ s.length := by
  intro p
  induction p with
  | nil => intro s _; simp
  | cons a as ih =>
    intro s h
    cases s with
    | nil => simp [List.isPrefixOf] at h
    | cons b bs =>
      simp only [List.isPrefixOf, Bool.and_eq_true] at h
      simpa using ih bs h.2

theorem findSplit_length (pat : List Char) :
    ∀ s b a : List Char, findSplit pat s = some (b, a) →
      b.length + pat.length + a.length = s.length := by
  intro s
  induction s with
  | nil => intro b a h; simp [findSplit] at h
  | cons c rest ih =>
    intro b a h
    simp only [findSplit] at h
    by_cases hp : pat.isPrefixOf (c :: rest)
    · rw [if_pos hp] at h
      injection h with h2
      injection h2 with hb ha
      subst hb; subst ha
      have hlen := length_le_of_isPrefixOf pat (c :: rest) hp
      simp only [List.length_drop, List.length_nil, List.length_cons] at *
      omega
    · rw [if_neg hp, Option.map_eq_some'] at h
      obtain ⟨⟨b', a'⟩, hfs, heq⟩ := h
      injection heq with hb ha
      subst hb; subst ha
      have := ih b' a' hfs
      simp only [List.length_cons]
      omega

theorem removeAll_of_findSplit_none (pat : List Char) :
    ∀ s : List Char, findSplit pat s = none → removeAll pat s = s := by
  intro s
  induction s with
  | nil => intro _; simp [removeAll, removeAllAux]
  | cons c rest ih =>
    intro h
    simp only [findSplit] at h
    by_cases hp : pat.isPrefixOf (c :: rest)
    · rw [if_pos hp] at h; exact Option.noConfusion h
    · rw [if_neg hp, Option.map_eq_none'] at h
      simp only [removeAll, removeAllAux]
      rw [if_neg hp]
      have := ih h
      simp only [removeAll] at this
      rw [this]

theorem removeAll_of_findSplit_some (pat : List Char) (hpat : pat ≠ []) :
    ∀ s b a : List Char, findSplit pat s = some (b, a) →
      removeAll pat s = b ++ removeAll pat a := by
  intro s
  induction s with
  | nil => intro b a h; simp [findSplit] at h
  | cons c rest ih =>
    intro b a h
    simp only [findSplit] at h
    by_cases hp : pat.isPrefixOf (c :: rest)
    · rw [if_pos hp] at h
      injection h with h2
      injection h2 with hb ha
      subst hb; subst ha
      obtain ⟨q, qs, hq⟩ : ∃ q qs, pat = q :: qs := by
        cases pat with
        | nil => exact absurd rfl hpat
        | cons q qs => exact ⟨q, qs, rfl⟩
      subst hq
      simp only [removeAll, removeAllAux, List.nil_append]
      rw [if_pos hp]
      have hd : List.drop (q :: qs).length (c :: rest) = List.drop qs.length rest := by
        simp [List.length_cons]
      have hk : (q :: qs).length - 1 = qs.length := by simp
      rw [hd, hk]
      exact removeAllAux_skip (q :: qs) qs.length rest
    · rw [if_neg hp, Option.map_eq_some'] at h
      obtain ⟨⟨b', a'⟩, hfs, heq⟩ := h
      injection heq with hb ha
      subst hb; subst ha
      simp only [removeAll, removeAllAux]
      rw [if_neg hp]
      have := ih b' a' hfs
      simp only [removeAll] at this
      rw [this, List.cons_append]

theorem removeAll_eq_removeEveryAux (pat : List Char) (hpat : pat ≠ []) :
    ∀ (n : Nat) (s : List Char), s.length ≤ n →
      removeAll pat s = removeEveryAux pat n s := by
  intro n
  induction n with
  | zero =>
    intro s hs
    have : s = [] := List.length_eq_zero.mp (Nat.le_zero.mp hs)
    subst this
    simp [removeAll, removeAllAux, removeEveryAux]
  | succ n ih =>
    intro s hs
    rw [removeEveryAux]
    cases hfs : findSplit pat s with
    | none => exact removeAll_of_findSplit_none pat s hfs
    | some p =>
      obtain ⟨b, a⟩ := p
      have hlen := findSplit_length pat s b a hfs
      have hp1 : 1 ≤ pat.length := by
        cases pat with
        | nil => exact absurd rfl hpat
        | cons _ _ => simp
      rw [removeAll_of_findSplit_some pat hpat s b a hfs, ih a (by omega)]

theorem removeAll_eq_removeEvery (pat : List Char) (hpat : pat ≠ [])
    (s : List Char) : removeAll pat s = removeEvery pat s :=
  removeAll_eq_removeEveryAux pat hpat s.length s (le_refl _)

/-- C2, counterexample: the normalizer of src/app3.py line 94 is not
idempotent.  `normalize "HH--" = "H-"` (the two scattered halves of the
pattern are joined by the first removal pass), while a second application
gives `normalize "H-" = ""`. -/
theorem normalize_not_idempotent_cex :
    normalize (normalize (['H', 'H', '-', '-'])) ≠
      normalize (['H', 'H', '-', '-']) := by decide

/-- C2, amended: `normalize` is idempotent only on inputs whose normalized
form is already trimmed and free of the three patterns; removal can splice
new pattern occurrences together (see the counterexample), so unconditional
idempotence fails.  The case-insensitivity example of the claim does hold:
`normalize "h-cit-ABC" = normalize "ABC" = "ABC"`. -/
theorem normalize_idempotent_amended (x : List Char)
    (h1 : trimList (normalize x) = normalize x)
    (h2 : occursIn hcitPat (normalize x) = false)
    (h3 : occursIn hPat (normalize x) = false)
    (h4 : occursIn citPat (normalize x) = false) :
    normalize (normalize x) = normalize x ∧
    normalize (['h', '-', 'c', 'i', 't', '-', 'A', 'B', 'C']) =
      normalize (['A', 'B', 'C']) ∧
    normalize (['A', 'B', 'C']) = ['A', 'B', 'C'] := by
  refine ⟨?_, by decide, by decide⟩
  show removeAll citPat (removeAll hPat (removeAll hcitPat
      (upperList (trimList (normalize x))))) = normalize x
  rw [h1, upperList_fixed_normalize, removeAll_of_not_occurs _ _ h2,
    removeAll_of_not_occurs _ _ h3, removeAll_of_not_occurs _ _ h4]

/-- C2, witness: the hypotheses of `normalize_idempotent_amended` hold at
the concrete input `"ABC"`, whose normalization is a fixed point. -/
theorem normalize_idempotent_amended_witness :
    trimList (normalize (['A', 'B', 'C'])) = normalize (['A', 'B', 'C']) ∧
    occursIn hcitPat (normalize (['A', 'B', 'C'])) = false ∧
    occursIn hPat (normalize (['A', 'B', 'C'])) = false ∧
    occursIn citPat (normalize (['A', 'B', 'C'])) = false ∧
    normalize (normalize (['A', 'B', 'C'])) = normalize (['A', 'B', 'C']) :=
  ⟨by decide, by decide, by decide, by decide,
    (normalize_idempotent_amended (['A', 'B', 'C'])
      (by decide) (by decide) (by decide) (by decide)).1⟩

/-- C3, counterexample: the code's normalizer removes an occurrence of
`"H-"` in the middle of the identifier (`"X-H-Y"` becomes `"X-Y"`), whereas
the claim's leading-only stripping would leave `"X-H-Y"` unchanged. -/
theorem normalize_leading_only_cex :
    normalize (['X', '-', 'H', '-', 'Y']) ≠
      normalizeLeadSpec (['X', '-', 'H', '-', 'Y']) := by decide

/-- C3, amended: the normalizer trims, uppercases, and then removes EVERY
occurrence of `"H-CIT-"`, then of `"H-"`, then of `"CIT-"`, in that order,
scanning left to right non-overlapping — not only a leading occurrence.
`removeEvery` is the independent delete-first-occurrence-and-continue
formulation; in particular a middle `"H-"` is removed, not preserved. -/
theorem normalize_removes_every_occurrence (s : List Char) :
    normalize s =
      removeEvery citPat (removeEvery hPat (removeEvery hcitPat
        (upperList (trimList s)))) ∧
    normalize (['X', '-', 'H', '-', 'Y']) = ['X', '-', 'Y'] := by
  constructor
  · show removeAll citPat (removeAll hPat (removeAll hcitPat
        (upperList (trimList s)))) = _
    rw [removeAll_eq_removeEvery hcitPat (by decide),
      removeAll_eq_removeEvery hPat (by decide),
      removeAll_eq_removeEvery citPat (by decide)]
  · decide

/-- C4, counterexample: on `"h-cit-123"` the application side gives
`"123"` (it uppercases before replacing) while the store side gives
`"H-CIT-123"` (it replaces case-sensitively before uppercasing and never
trims). -/
theorem sql_vs_py_normalizer_cex :
    sqlPartyKey (['h', '-', 'c', 'i', 't', '-', '1', '2', '3']) ≠
      normalize (['h', '-', 'c', 'i', 't', '-', '1', '2', '3']) := by decide

/-- C4, amended: the application-side normalizer and the store-side key
transformation agree exactly on identifiers that are already trimmed and
already upper-case fixed points; they differ in general (lower-case or
whitespace-padded identifiers), so the two sides are not the identical
function. -/
theorem sql_vs_py_normalizer_amended (s : List Char)
    (h1 : trimList s = s) (h2 : upperList s = s) :
    sqlPartyKey s = normalize s := by
  unfold sqlPartyKey normalize
  rw [h1, h2]
  exact upperList_fixed_removeAll _ _
    (upperList_fixed_removeAll _ _ (upperList_fixed_removeAll _ _ h2))

/-- C4, witness: the two key transformations agree at the trimmed,
upper-case identifier `"ACME1"`. -/
theorem sql_vs_py_normalizer_amended_witness :
    trimList (['A', 'C', 'M', 'E', '1']) = ['A', 'C', 'M', 'E', '1'] ∧
    upperList (['A', 'C', 'M', 'E', '1']) = ['A', 'C', 'M', 'E', '1'] ∧
    sqlPartyKey (['A', 'C', 'M', 'E', '1']) =
      normalize (['A', 'C', 'M', 'E', '1']) :=
  ⟨by decide, by decide,
    sql_vs_py_normalizer_amended _ (by decide) (by decide)⟩

end Citrix

namespace Citrix

/-- C1, counterexample: a whitespace-only affinity code `"  "` does NOT
behave as absent in the code: `pd.notna` holds and the trimmed value `""`
differs from `"nan"`, so the contact is coloured purple, where the claim
demands red. -/
theorem statusColor_whitespace_affinity_cex :
    statusColor (some [' ', ' ']) false ≠
      statusColorClaim (some [' ', ' ']) false ∧
    statusColor (some [' ', ' ']) false = purpleColor ∧
    statusColorClaim (some [' ', ' ']) false = redColor := by decide

/-- C1, amended: `status_color` is purple exactly when the affinity code is
non-null and its trimmed form differs from the literal `"nan"` — an empty or
whitespace-only affinity also yields purple; otherwise yellow when engaged,
otherwise red. -/
theorem statusColor_amended_characterization
    (affinity : Option (List Char)) (isEng : Bool) :
    (statusColor affinity isEng = purpleColor ↔
      ∃ a, affinity = some a ∧ trimList a ≠ nanChars) ∧
    (statusColor affinity isEng = yellowColor ↔
      (∀ a, affinity = some a → trimList a = nanChars) ∧ isEng = true) ∧
    (statusColor affinity isEng = redColor ↔
      (∀ a, affinity = some a → trimList a = nanChars) ∧ isEng = false) := by
  have h1 : purpleColor ≠ yellowColor := by decide
  have h2 : purpleColor ≠ redColor := by decide
  have h3 : yellowColor ≠ redColor := by decide
  have h4 : yellowColor ≠ purpleColor := h1.symm
  have h5 : redColor ≠ purpleColor := h2.symm
  have h6 : redColor ≠ yellowColor := h3.symm
  rcases affinity with _ | a
  · cases isEng <;>
      simp [statusColor, affinityVisible, h1, h2, h3, h4, h5, h6]
  · by_cases hn : trimList a = nanChars <;> cases isEng <;>
      simp [statusColor, affinityVisible, hn, h1, h2, h3, h4, h5, h6]

end Citrix

namespace Citrix

theorem getLast?_eq_lastToken :
    ∀ (ts : List (List Char)) (t0 t1 : List Char),
      (t0 :: t1 :: ts).getLast? = some (lastToken t1 ts) := by
  intro ts
  induction ts with
  | nil => intro t0 t1; simp [lastToken]
  | cons t2 ts ih =>
    intro t0 t1
    rw [List.getLast?_cons_cons]
    exact ih t1 t2

/-- C5: `is_engaged` is true exactly when the whitespace-split of the
display name has at least two tokens and the lower-cased (first, last) token
pair is in the engaged-name set; in particular the three-token name
`"Jane Q Doe"` matches the engaged pair `("jane", "doe")`. -/
theorem isEngaged_characterization
    (engagedNames : List (List Char × List Char)) (name : List Char) :
    (isEngaged engagedNames name = true ↔
      2 ≤ (splitWs name).length ∧
      ∃ t0 tn, (splitWs name).head? = some t0 ∧
        (splitWs name).getLast? = some tn ∧
        (lowerList t0, lowerList tn) ∈ engagedNames) ∧
    isEngaged [(['j', 'a', 'n', 'e'], ['d', 'o', 'e'])]
      (['J', 'a', 'n', 'e', ' ', 'Q', ' ', 'D', 'o', 'e']) = true := by
  refine ⟨?_, by decide⟩
  cases hts : splitWs name with
  | nil => simp [isEngaged, hts]
  | cons t0 ts =>
    cases ts with
    | nil => simp [isEngaged, hts]
    | cons t1 ts' =>
      simp only [isEngaged, hts, List.contains, List.elem_iff,
        List.length_cons, List.head?_cons, getLast?_eq_lastToken,
        Option.some.injEq]
      constructor
      · intro hm
        exact ⟨by omega, t0, lastToken t1 ts', rfl, rfl, hm⟩
      · rintro ⟨-, x0, xn, hx0, hxn, hm⟩
        subst hx0; subst hxn; exact hm

end Citrix

namespace Citrix

/-- C6, counterexample: for a named row with the non-blank buying role
`"CHAMP"` the code still labels it `"Jane Doe"`, not
`"Jane Doe - CHAMP"` as the claim states. -/
theorem rowLabel_role_cex :
    rowLabel ⟨some ['J', 'a', 'n', 'e'], some ['D', 'o', 'e'],
        some ['C', 'H', 'A', 'M', 'P']⟩ ≠
      rowLabelClaim ⟨some ['J', 'a', 'n', 'e'], some ['D', 'o', 'e'],
        some ['C', 'H', 'A', 'M', 'P']⟩ := by decide

/-- C6, amended: the derived label of a named activity row is always
`"first last"`; the buying-role value is renamed by line 199 but never
appended, so the label does not depend on it. -/
theorem rowLabel_amended (f l : List Char) (role : Option (List Char)) :
    rowLabel ⟨some f, some l, role⟩ = some (f ++ ' ' :: l) ∧
    rowLabel ⟨some f, some l, role⟩ = rowLabel ⟨some f, some l, none⟩ :=
  ⟨rfl, rfl⟩

end Citrix

namespace Citrix

/-- C10: called with an empty identifier (or account-name) set, each of the
three loaders returns an empty record set at once, issuing no query to the
data store — the result is `([], [])` whatever the store contains. -/
theorem loaders_empty_ids (firmoDb : List FirmoRow)
    (contactDb : List ContactRow) (bulkDb : List BulkRow) :
    loadAccountFirmographics firmoDb [] = ([], []) ∧
    loadAccountContacts contactDb [] = ([], []) ∧
    loadBulkAccountData bulkDb [] = ([], []) :=
  ⟨rfl, rfl, rfl⟩

/-- C8, counterexample: a firmographic result keeps its entirely-empty
columns: for a store with one matching row whose single attribute column is
all-null, the code returns the row with the column intact, while the claim
demands the column dropped. -/
theorem loadAccountFirmographics_drop_cex :
    (loadAccountFirmographics [⟨some ['A'], [none]⟩] [['A']]).2 ≠
      (loadAccountFirmographicsClaim [⟨some ['A'], [none]⟩] [['A']]).2 := by
  decide

/-- C8, amended: the firmographic lookup returns exactly the rows whose raw
`"CustomerId_NAR"` is in the requested id set, each row unchanged — no
entirely-empty column is dropped before returning. -/
theorem loadAccountFirmographics_amended (db : List FirmoRow)
    (customerIds : List (List Char)) (r : FirmoRow) :
    r ∈ (loadAccountFirmographics db customerIds).2 ↔
      customerIds ≠ [] ∧ r ∈ db ∧
        ∃ v, r.customerId = some v ∧ v ∈ customerIds := by
  unfold loadAccountFirmographics
  by_cases h : customerIds = []
  · simp [h]
  · rw [if_neg h]
    simp only [List.mem_filter]
    constructor
    · rintro ⟨hdb, hp⟩
      refine ⟨h, hdb, ?_⟩
      cases hv : r.customerId with
      | none => rw [hv] at hp; simp at hp
      | some v =>
        rw [hv] at hp
        simp only [List.contains, List.elem_iff] at hp
        exact ⟨v, rfl, hp⟩
    · rintro ⟨-, hdb, v, hv, hmem⟩
      refine ⟨hdb, ?_⟩
      rw [hv]
      simp only [List.contains, List.elem_iff]
      exact hmem

/-- C7: the bulk-export date filter keeps exactly the rows whose parsed
calendar date lies in the closed interval (both endpoints included,
time-of-day ignored), rows with unparsable or missing dates are excluded,
and the customer-id extraction feeding the contact lookup ignores the date
range entirely (it reads the unfiltered set) — witnessed concretely by the
`23:59` row kept on a one-day range and by an out-of-range row whose id is
still extracted. -/
theorem tabExport_dateFilter_characterization (startD endD : Int)
    (rows : List BulkRow) :
    (∀ r, r ∈ (tabExport startD endD rows).1 ↔
      r ∈ rows ∧ ∃ dt, r.activityDate = some dt ∧
        startD ≤ dt.day ∧ dt.day ≤ endD) ∧
    (∀ s e : Int, (tabExport s e rows).2 = exportCustIds rows) ∧
    (tabExport 20240601 20240601
        [⟨none, some ['A'], some ⟨20240601, 86340⟩⟩]).1 =
      [⟨none, some ['A'], some ⟨20240601, 86340⟩⟩] ∧
    tabExport 5 5 [⟨none, some ['B'], some ⟨9, 0⟩⟩] = ([], [['B']]) := by
  refine ⟨?_, fun s e => rfl, by decide, by decide⟩
  intro r
  simp only [tabExport, dateFilter, List.mem_filter]
  constructor
  · rintro ⟨hr, hp⟩
    refine ⟨hr, ?_⟩
    cases hv : r.activityDate with
    | none => rw [hv] at hp; simp at hp
    | some dt =>
      rw [hv] at hp
      simp only [Bool.and_eq_true, decide_eq_true_eq] at hp
      exact ⟨dt, rfl, hp.1, hp.2⟩
  · rintro ⟨hr, dt, hdt, h1, h2⟩
    refine ⟨hr, ?_⟩
    rw [hdt]
    simp [h1, h2]

end Citrix

namespace Citrix

/-- C9, counterexample: with columns `["Account"]` neither name column
resolves, yet the rendered trace contains no error action and still renders
the firmographics and contacts sections — the view continues silently
instead of surfacing an error and aborting. -/
theorem dashboardTrace_silent_skip_cex :
    resolveCol [['A', 'c', 'c', 'o', 'u', 'n', 't']] possibleFirst = none ∧
    (dashboardTrace [['A', 'c', 'c', 'o', 'u', 'n', 't']] false [] true
        true true).any isErrorAction = false ∧
    (dashboardTrace [['A', 'c', 'c', 'o', 'u', 'n', 't']] false [] true
        true true).contains (UIAction.subheader firmoHdr) = true ∧
    (dashboardTrace [['A', 'c', 'c', 'o', 'u', 'n', 't']] false [] true
        true true).contains (UIAction.subheader contactsHdr) = true := by
  decide

/-- C9, amended: when the first or last name column cannot be resolved, the
account view surfaces no error and does not abort: it silently renders
nothing in the timeline section (no chart, no message) and proceeds to
render the firmographics and contacts sections. -/
theorem dashboardTrace_amended (cols : List (List Char)) (hasNamed : Bool)
    (custIds : List (List Char)) (firmoEmpty contactsEmpty filteredEmpty : Bool)
    (h : resolveCol cols possibleFirst = none ∨
      resolveCol cols possibleLast = none) :
    (dashboardTrace cols hasNamed custIds firmoEmpty contactsEmpty
        filteredEmpty).any isErrorAction = false ∧
    UIAction.subheader firmoHdr ∈
      dashboardTrace cols hasNamed custIds firmoEmpty contactsEmpty
        filteredEmpty ∧
    UIAction.subheader contactsHdr ∈
      dashboardTrace cols hasNamed custIds firmoEmpty contactsEmpty
        filteredEmpty ∧
    UIAction.chart ∉
      dashboardTrace cols hasNamed custIds firmoEmpty contactsEmpty
        filteredEmpty := by
  cases hf : resolveCol cols possibleFirst with
  | some vf =>
    cases hl : resolveCol cols possibleLast with
    | some vl =>
      rw [hf, hl] at h
      rcases h with h | h <;> exact Option.noConfusion h
    | none =>
      simp only [dashboardTrace, hf, hl]
      by_cases hc : custIds = [] <;>
        cases firmoEmpty <;> cases contactsEmpty <;> cases filteredEmpty <;>
          simp [hc, isErrorAction]
  | none =>
    cases hl : resolveCol cols possibleLast with
    | some vl =>
      simp only [dashboardTrace, hf, hl]
      by_cases hc : custIds = [] <;>
        cases firmoEmpty <;> cases contactsEmpty <;> cases filteredEmpty <;>
          simp [hc, isErrorAction]
    | none =>
      simp only [dashboardTrace, hf, hl]
      by_cases hc : custIds = [] <;>
        cases firmoEmpty <;> cases contactsEmpty <;> cases filteredEmpty <;>
          simp [hc, isErrorAction]

/-- C9, witness: a concrete view whose column set resolves no first-name
column; the amended theorem applies and its conclusions hold there. -/
theorem dashboardTrace_amended_witness :
    resolveCol [['A', 'c', 'c', 't']] possibleFirst = none ∧
    ((dashboardTrace [['A', 'c', 'c', 't']] true [['X']] false false
        false).any isErrorAction = false ∧
    UIAction.subheader firmoHdr ∈
      dashboardTrace [['A', 'c', 'c', 't']] true [['X']] false false false ∧
    UIAction.subheader contactsHdr ∈
      dashboardTrace [['A', 'c', 'c', 't']] true [['X']] false false false ∧
    UIAction.chart ∉
      dashboardTrace [['A', 'c', 'c', 't']] true [['X']] false false false) :=
  ⟨by decide,
    dashboardTrace_amended [['A', 'c', 'c', 't']] true [['X']] false false
      false (Or.inl (by decide))⟩

end Citrix
